import Mathlib

/-!
Verification of the RmlUi core element utilities
(`Source/Core/ElementUtilities.cpp`) against its natural-language
specification.

The development shallowly embeds the functions of `ElementUtilities.cpp`:

* `getClippingRegion` — `ElementUtilities::GetClippingRegion` (lines 188-257),
  the ancestor-walking clip-region resolver;
* `setClippingRegion` / `applyActiveClipRegion` —
  `ElementUtilities::SetClippingRegion` and `ApplyActiveClipRegion`
  (lines 260-309), the cached scissor-state applier;
* `positionElement` (with `setBox` / `setElementOffset`) —
  `ElementUtilities::PositionElement` (lines 325-347);
* `getElementsByTagName` / `getElementsByClassName` — the breadth-first
  tree searches (lines 97-139);
* `applyTransform` — `ElementUtilities::ApplyTransform` (lines 349-371).

Machine floats (`float` geometry) are embedded as exact rationals `ℚ`;
machine `int` as `Int` (no overflow is relevant to any statement here);
pointers are embedded as addresses (`Nat`) compared by identity.
-/

namespace RmlUiCore

/-! ## Clip-region data (`Vector2i` clip state of `GetClippingRegion`) -/

/-- A clip rectangle candidate/accumulator: `clip_origin` and
`clip_dimensions` of `GetClippingRegion`, stored as four `Int`
components (`Vector2i` pairs in the source). -/
@[ext]
structure ClipState where
  ox : Int
  oy : Int
  dx : Int
  dy : Int
deriving DecidableEq, Repr

/-- The reserved sentinel `(-1, -1), (-1, -1)` that `GetClippingRegion`
initialises `clip_origin`/`clip_dimensions` with and tests for to decide
whether the accumulated region is still unset. -/
def unsetClip : ClipState := ⟨-1, -1, -1, -1⟩

/-- The intersection step of `GetClippingRegion` (lines 224-232):
top-left is the per-axis max of the two origins, bottom-right the
per-axis min of origin+dimensions, and the new dimensions are clamped to
`max 0 (bottom_right - top_left)` per axis. -/
def interClip (s r : ClipState) : ClipState :=
  ⟨max s.ox r.ox, max s.oy r.oy,
   max 0 (min (s.ox + s.dx) (r.ox + r.dx) - max s.ox r.ox),
   max 0 (min (s.oy + s.dy) (r.oy + r.dy) - max s.oy r.oy)⟩

@[simp] theorem interClip_ox (s r : ClipState) : (interClip s r).ox = max s.ox r.ox := rfl

@[simp] theorem interClip_oy (s r : ClipState) : (interClip s r).oy = max s.oy r.oy := rfl

@[simp] theorem interClip_dx (s r : ClipState) :
    (interClip s r).dx = max 0 (min (s.ox + s.dx) (r.ox + r.dx) - max s.ox r.ox) := rfl

@[simp] theorem interClip_dy (s r : ClipState) :
    (interClip s r).dy = max 0 (min (s.oy + s.dy) (r.oy + r.dy) - max s.oy r.oy) := rfl

/-- The adopt-or-intersect combination of `GetClippingRegion`
(lines 217-233): if the accumulated region still equals the unset
sentinel, adopt the ancestor's rectangle, otherwise intersect. -/
def mergeClip (s r : ClipState) : ClipState :=
  if s = unsetClip then r else interClip s r

theorem mergeClip_ne_unset (s : ClipState) (hs : s ≠ unsetClip) (r : ClipState) :
    mergeClip s r ≠ unsetClip := by
  simp only [mergeClip, if_neg hs]
  intro h
  have hdx := congrArg ClipState.dx h
  simp only [interClip_dx, unsetClip] at hdx
  omega

theorem mergeClip_unset (r : ClipState) : mergeClip unsetClip r = r := by
  simp [mergeClip]

theorem mergeClip_of_ne (s r : ClipState) (hs : s ≠ unsetClip) :
    mergeClip s r = interClip s r := by
  simp only [mergeClip, if_neg hs]

/-! ## Elements as seen by the clip resolver

`GetClippingRegion` observes of each ancestor: whether clipping is
enabled, the clipping-ignore depth, client/scroll extents, and the
absolute content-box origin and content-box size. The `float`
quantities are embedded as `ℚ`. -/

/-- The attributes of an ancestor element read by `GetClippingRegion`. -/
structure ClipElem where
  clipping_enabled : Bool
  ignoreDepth : Int
  clientWidth : ℚ
  clientHeight : ℚ
  scrollWidth : ℚ
  scrollHeight : ℚ
  contentOffsetX : ℚ
  contentOffsetY : ℚ
  contentSizeX : ℚ
  contentSizeY : ℚ
deriving DecidableEq, Repr

/-- Modelled from the spec: `Math::RealToInteger` is not part of the
shown source; the spec (§4.3) asks for the ancestor's absolute
content-box origin and size to be rounded to the nearest integer,
embedded here as round-half-up, `⌊x + 1/2⌋`, computed on the
numerator/denominator pair so that it evaluates by kernel reduction. -/
def realToInteger (x : ℚ) : Int := (2 * x.num + (x.den : Int)).fdiv (2 * (x.den : Int))

/-- The overflow test of `GetClippingRegion` (lines 208-209): the
ancestor's content overflows when the client extent is less than the
scroll extent on either axis. -/
def overflows (e : ClipElem) : Bool :=
  decide (e.clientWidth < e.scrollWidth) || decide (e.clientHeight < e.scrollHeight)

/-- The ancestor's rounded absolute content rectangle
(`element_origin` / `element_dimensions`, lines 211-215). -/
def elemClipRect (e : ClipElem) : ClipState :=
  ⟨realToInteger e.contentOffsetX, realToInteger e.contentOffsetY,
   realToInteger e.contentSizeX, realToInteger e.contentSizeY⟩

/-- The loop of `GetClippingRegion` (lines 202-254) over the ancestor
chain, listed from the node's parent upward, carrying the accumulated
clip state and `num_ignored_clips`. Per ancestor: contribute when the
skip count is zero, clipping is enabled and the content overflows;
consume a skip when the count is positive and clipping is enabled;
stop climbing when the ancestor's own ignore depth is negative, else
inherit it as a floor via `max`. -/
def clipLoop : List ClipElem → ClipState → Int → ClipState
  | [], s, _ => s
  | e :: rest, s, num =>
    let s1 := if (num == 0) && e.clipping_enabled && overflows e then mergeClip s (elemClipRect e) else s
    let num1 := if (num > 0 : Bool) && e.clipping_enabled then num - 1 else num
    if e.ignoreDepth < 0 then s1
    else clipLoop rest s1 (max num1 e.ignoreDepth)

/-- A node submitted to `GetClippingRegion`: its own clipping-ignore
depth and its finite, acyclic ancestor chain (parent first). -/
structure ClipNode where
  ignoreDepth : Int
  ancestors : List ClipElem
deriving DecidableEq, Repr

/-- `ElementUtilities::GetClippingRegion` (lines 188-257). Returns the
output `clip_origin`/`clip_dimensions` pair together with the returned
flag `clip_dimensions.x >= 0 && clip_dimensions.y >= 0`. A negative
ignore depth on the node itself returns immediately with the sentinel
outputs and `false`. -/
def getClippingRegion (n : ClipNode) : ClipState × Bool :=
  if n.ignoreDepth < 0 then (unsetClip, false)
  else
    let s := clipLoop n.ancestors unsetClip n.ignoreDepth
    (s, decide (0 ≤ s.dx) && decide (0 ≤ s.dy))

/-! ## The spec's reference state machine (§4.3 ClipRegionResolver)

A second definition, written from the specification's words, to be
compared with `getClippingRegion`. The spec maintains an accumulated
region starting "unset" (the reserved sentinel of §3) and
`skip` = the node's own ignore-depth, then walks ancestors from the
parent upward applying steps 1-4 of §4.3. -/

/-- Modelled from the spec, §4.3 step 1: combine the ancestor's rounded
rectangle with the accumulated region — adopt when unset, otherwise
intersect with per-axis max origin, min bottom-right, dimensions
clamped at zero. -/
def specCombine (region rect : ClipState) : ClipState :=
  if region = unsetClip then rect
  else
    ⟨max region.ox rect.ox, max region.oy rect.oy,
     max 0 (min (region.ox + region.dx) (rect.ox + rect.dx) - max region.ox rect.ox),
     max 0 (min (region.oy + region.dy) (rect.oy + rect.dy) - max region.oy rect.oy)⟩

/-- Modelled from the spec, §4.3 steps 1-2 for a single ancestor:
contribute when `skip == 0`, clipping is enabled and the content
overflows on either axis; consume a skip when `skip > 0` and clipping
is enabled. -/
def specAncestorStep (a : ClipElem) (region : ClipState) (skip : Int) : ClipState × Int :=
  let region1 :=
    if (skip == 0) && a.clipping_enabled && (decide (a.clientWidth < a.scrollWidth) || decide (a.clientHeight < a.scrollHeight))
    then specCombine region (elemClipRect a) else region
  let skip1 := if (skip > 0 : Bool) && a.clipping_enabled then skip - 1 else skip
  (region1, skip1)

/-- Modelled from the spec, §4.3 steps 3-4: after the per-ancestor step,
stop climbing when the ancestor's own ignore-depth is negative,
otherwise inherit it as a floor (`skip = max skip ancestorIgnore`) and
advance to the next ancestor. -/
def specWalk : List ClipElem → ClipState → Int → ClipState
  | [], region, _ => region
  | a :: rest, region, skip =>
    let p := specAncestorStep a region skip
    if a.ignoreDepth < 0 then p.1
    else specWalk rest p.1 (max p.2 a.ignoreDepth)

/-- Modelled from the spec, §4.3: the full reference resolution. A node
with negative own ignore-depth resolves immediately to "no clip";
otherwise the walk runs and the result "has clip" iff a non-unset
region with non-negative dimensions was produced. -/
def specResolveClip (n : ClipNode) : ClipState × Bool :=
  if n.ignoreDepth < 0 then (unsetClip, false)
  else
    let r := specWalk n.ancestors unsetClip n.ignoreDepth
    (r, decide (r ≠ unsetClip) && decide (0 ≤ r.dx) && decide (0 ≤ r.dy))

theorem specCombine_eq_mergeClip (region rect : ClipState) :
    specCombine region rect = mergeClip region rect := by
  by_cases h : region = unsetClip
  · simp [specCombine, mergeClip, h]
  · simp [specCombine, mergeClip, interClip, h]

theorem specWalk_eq_clipLoop (l : List ClipElem) (s : ClipState) (num : Int) :
    specWalk l s num = clipLoop l s num := by
  induction l generalizing s num with
  | nil => rfl
  | cons a rest ih =>
    simp only [specWalk, clipLoop, specAncestorStep, specCombine_eq_mergeClip, overflows]
    by_cases h : a.ignoreDepth < 0
    · simp [h]
    · simp [h, ih]

/-- A produced region with non-negative dimensions is never the unset
sentinel (whose dimensions are `(-1, -1)`), so the code's returned flag
`dx ≥ 0 && dy ≥ 0` coincides with the spec's
"non-unset and non-negative dimensions". -/
theorem clipFlag_eq (r : ClipState) :
    (decide (0 ≤ r.dx) && decide (0 ≤ r.dy)) =
      (decide (r ≠ unsetClip) && decide (0 ≤ r.dx) && decide (0 ≤ r.dy)) := by
  by_cases hx : 0 ≤ r.dx
  · have hne : r ≠ unsetClip := by
      intro h
      have := congrArg ClipState.dx h
      simp only [unsetClip] at this
      omega
    simp [hx, hne]
  · simp [hx]

/-- C1: for every node with a finite, acyclic ancestor chain,
`GetClippingRegion` equals the spec's reference state machine: immediate
"no clip" on negative own ignore-depth; otherwise the ancestor walk with
`skip` initialised to the node's ignore-depth, contributing an
ancestor's rounded absolute content rectangle (adopt-or-intersect) when
`skip == 0`, clipping is enabled and the content overflows on either
axis, and consuming a skip when `skip > 0` and clipping is enabled. -/
theorem getClippingRegion_eq_spec (n : ClipNode) :
    getClippingRegion n = specResolveClip n := by
  unfold getClippingRegion specResolveClip
  by_cases h : n.ignoreDepth < 0
  · simp [h]
  · simp only [h, if_false, specWalk_eq_clipLoop]
    exact congrArg _ (clipFlag_eq _)

/-! ## Concrete elements used in counterexamples and witnesses -/

/-- A clip-enabled, overflowing ancestor (client `1` < scroll `2` on
both axes) with ignore-depth `0` and absolute content rectangle
`(ox, oy)`–`(sx, sy)`. -/
def overflowElem (ox oy sx sy : ℚ) : ClipElem := ⟨true, 0, 1, 1, 2, 2, ox, oy, sx, sy⟩

/-- A clip-enabled ancestor whose content does not overflow
(client `10` = scroll `10` on both axes), ignore-depth `0`. -/
def noOverflowElem : ClipElem := ⟨true, 0, 10, 10, 10, 10, 0, 0, 50, 50⟩

/-- An ancestor with clipping disabled and ignore-depth `0`. -/
def disabledElem : ClipElem := ⟨false, 0, 1, 1, 2, 2, 3, 3, 7, 7⟩

/-! ## C9 — active flag of the resolver -/

/-- C9: `GetClippingRegion` returns `true` iff a non-unset region with
non-negative dimensions was produced; whenever it returns `true` both
dimension components are ≥ 0; and a region collapsed to zero size by
intersection (here `(0,0)×(10,10)` intersected with `(20,20)×(5,5)`)
still yields `true` at origin `(20,20)` with dimensions `(0,0)`. -/
theorem getClippingRegion_active_iff :
    (∀ n : ClipNode,
      ((getClippingRegion n).2 = true ↔
        ((getClippingRegion n).1 ≠ unsetClip ∧
         0 ≤ (getClippingRegion n).1.dx ∧ 0 ≤ (getClippingRegion n).1.dy))) ∧
    getClippingRegion ⟨0, [overflowElem 0 0 10 10, overflowElem 20 20 5 5]⟩ =
      (⟨20, 20, 0, 0⟩, true) := by
  constructor
  · intro n
    unfold getClippingRegion
    by_cases h : n.ignoreDepth < 0
    · simp [h, unsetClip]
    · simp only [h, if_false]
      rw [clipFlag_eq]
      simp [and_assoc]
  · decide

/-! ## C2 — presence of non-contributing ancestors -/

/-- An ancestor with clipping disabled and a negative ignore-depth. -/
def negIgnoreDisabledElem : ClipElem := ⟨false, -1, 1, 1, 2, 2, 0, 0, 5, 5⟩

/-- An ancestor with clipping disabled and ignore-depth `1`. -/
def posIgnoreDisabledElem : ClipElem := ⟨false, 1, 1, 1, 2, 2, 0, 0, 5, 5⟩

/-- C2 counterexample: the claim states that inserting an ancestor that
is "not clip-enabled or not overflowing" never changes the resolved
region; it fails three ways. `noOverflowElem` is clip-enabled but not
overflowing, yet with the node's ignore-depth at the non-negative `1`
its insertion consumes the pending skip (line 240 decrements on
`IsClippingEnabled` alone) and turns an inactive result into an active
one. A clipping-disabled ancestor with negative ignore-depth blocks the
walk, and one with positive ignore-depth raises the skip floor; both
likewise change the result. -/
theorem clip_insert_counterexample :
    (overflows noOverflowElem = false ∧
      getClippingRegion ⟨1, [noOverflowElem, overflowElem 10 10 80 80]⟩ ≠
        getClippingRegion ⟨1, [overflowElem 10 10 80 80]⟩) ∧
    (negIgnoreDisabledElem.clipping_enabled = false ∧
      getClippingRegion ⟨0, [negIgnoreDisabledElem, overflowElem 10 10 80 80]⟩ ≠
        getClippingRegion ⟨0, [overflowElem 10 10 80 80]⟩) ∧
    (posIgnoreDisabledElem.clipping_enabled = false ∧
      getClippingRegion ⟨0, [posIgnoreDisabledElem, overflowElem 10 10 80 80]⟩ ≠
        getClippingRegion ⟨0, [overflowElem 10 10 80 80]⟩) := by
  decide

theorem clipLoop_transparent (a : ClipElem) (ha1 : a.clipping_enabled = false)
    (ha2 : a.ignoreDepth = 0) :
    ∀ (pre post : List ClipElem) (s : ClipState) (num : Int), 0 ≤ num →
      clipLoop (pre ++ a :: post) s num = clipLoop (pre ++ post) s num := by
  intro pre
  induction pre with
  | nil =>
    intro post s num hnum
    simp only [List.nil_append, clipLoop, ha1, ha2, Bool.and_false, Bool.false_and,
      Bool.and_self, if_false]
    have h0 : ¬ ((0 : Int) < 0) := by omega
    have hmax : max num (0 : Int) = num := by omega
    simp [h0, hmax]
  | cons e pre ih =>
    intro post s num hnum
    simp only [List.cons_append, clipLoop]
    by_cases h : e.ignoreDepth < 0
    · simp [h]
    · have hge : 0 ≤ max (if (num > 0 : Bool) && e.clipping_enabled then num - 1 else num)
          e.ignoreDepth := by
        by_cases hc : ((num > 0 : Bool) && e.clipping_enabled) = true <;> simp [hc] <;> omega
      simp only [h, if_false]
      exact ih post _ _ hge

/-- C2 (amended): for every node with non-negative ignore-depth,
inserting or removing an ancestor that has clipping disabled and
ignore-depth zero — all other ancestors and attributes unchanged — does
not change the result of `GetClippingRegion`: neither the active flag
nor the origin or dimensions. (As stated, with "not clip-enabled or not
overflowing", the claim fails: a clip-enabled, non-overflowing ancestor
consumes a pending skip, and an ancestor with non-zero ignore-depth
alters the skip bookkeeping; see the counterexample.) -/
theorem clip_insert_transparent (d : Int) (pre post : List ClipElem) (a : ClipElem)
    (hd : 0 ≤ d) (ha1 : a.clipping_enabled = false) (ha2 : a.ignoreDepth = 0) :
    getClippingRegion ⟨d, pre ++ a :: post⟩ = getClippingRegion ⟨d, pre ++ post⟩ := by
  unfold getClippingRegion
  have hnlt : ¬ (d < 0) := by omega
  simp only [hnlt, if_false]
  rw [clipLoop_transparent a ha1 ha2 pre post unsetClip d hd]

/-- Witness for `clip_insert_transparent` at a concrete input: removing
a disabled, ignore-depth-zero ancestor between the node and an
overflowing ancestor leaves the resolved region unchanged. -/
theorem clip_insert_transparent_witness :
    getClippingRegion ⟨0, [] ++ disabledElem :: [overflowElem 10 10 80 80]⟩ =
      getClippingRegion ⟨0, [] ++ [overflowElem 10 10 80 80]⟩ :=
  clip_insert_transparent 0 [] [overflowElem 10 10 80 80] disabledElem
    (by decide) rfl rfl

/-! ## C3 — order independence of the adopt-or-intersect combination -/

/-- C3 counterexample: the adopt-or-intersect combination is not
invariant under every permutation of contributing rectangles. A
contributing rectangle that happens to equal the reserved unset
sentinel `((-1,-1),(-1,-1))` resets the accumulator to "unset" when
adopted first (so the next rectangle is adopted whole), but shrinks the
region to zero when intersected second. -/
theorem mergeClip_perm_counterexample :
    ([unsetClip, (⟨0, 0, 10, 10⟩ : ClipState)]).Perm [(⟨0, 0, 10, 10⟩ : ClipState), unsetClip] ∧
    ([unsetClip, (⟨0, 0, 10, 10⟩ : ClipState)]).foldl mergeClip unsetClip ≠
      ([(⟨0, 0, 10, 10⟩ : ClipState), unsetClip]).foldl mergeClip unsetClip := by
  decide

set_option maxHeartbeats 1000000 in
theorem mergeClip_two_step_comm (s x y : ClipState) (hx : x ≠ unsetClip) (hy : y ≠ unsetClip) :
    mergeClip (mergeClip s x) y = mergeClip (mergeClip s y) x := by
  by_cases hs : s = unsetClip
  · subst hs
    rw [mergeClip_unset, mergeClip_unset, mergeClip_of_ne _ _ hx, mergeClip_of_ne _ _ hy]
    ext <;> simp only [interClip_ox, interClip_oy, interClip_dx, interClip_dy] <;> omega
  · have h1 : mergeClip s x ≠ unsetClip := mergeClip_ne_unset s hs x
    have h2 : mergeClip s y ≠ unsetClip := mergeClip_ne_unset s hs y
    rw [mergeClip_of_ne _ _ h1, mergeClip_of_ne _ _ h2, mergeClip_of_ne _ _ hs,
      mergeClip_of_ne _ _ hs]
    ext <;> simp only [interClip_ox, interClip_oy, interClip_dx, interClip_dy] <;> omega

theorem mergeClip_foldl_perm_aux {l1 l2 : List ClipState} (hp : l1.Perm l2)
    (h : ∀ r ∈ l1, r ≠ unsetClip) : ∀ s, l1.foldl mergeClip s = l2.foldl mergeClip s := by
  induction hp with
  | nil => intro s; rfl
  | cons x p ih =>
    intro s
    simp only [List.foldl_cons]
    exact ih (fun r hr => h r (List.mem_cons_of_mem _ hr)) _
  | swap x y l =>
    intro s
    simp only [List.foldl_cons]
    rw [mergeClip_two_step_comm s y x (h y (by simp)) (h x (by simp))]
  | trans p1 p2 ih1 ih2 =>
    intro s
    rw [ih1 h s, ih2 (fun r hr => h r (p1.mem_iff.mpr hr)) s]

/-- C3 (amended): for two orderings of the same multiset of
contributing ancestor rectangles, none of which equals the reserved
unset sentinel `((-1,-1),(-1,-1))`, the accumulated region after the
adopt-or-intersect combination of `GetClippingRegion` is identical:
the combination is commutative and associative in its effect on the
accumulated region. (As stated — over every multiset — the claim fails
when a contributing rectangle equals the sentinel; see the
counterexample.) -/
theorem mergeClip_fold_perm (l1 l2 : List ClipState) (hp : l1.Perm l2)
    (h : ∀ r ∈ l1, r ≠ unsetClip) :
    l1.foldl mergeClip unsetClip = l2.foldl mergeClip unsetClip :=
  mergeClip_foldl_perm_aux hp h unsetClip

/-- Witness for `mergeClip_fold_perm` at concrete rectangles: the two
orders of `(0,0)×(10,10)` and `(3,3)×(4,4)` accumulate to the same
region. -/
theorem mergeClip_fold_perm_witness :
    ([(⟨0, 0, 10, 10⟩ : ClipState), (⟨3, 3, 4, 4⟩ : ClipState)]).foldl mergeClip unsetClip =
      ([(⟨3, 3, 4, 4⟩ : ClipState), (⟨0, 0, 10, 10⟩ : ClipState)]).foldl mergeClip unsetClip :=
  mergeClip_fold_perm _ _ (by decide) (by decide)

/-! ## C4 — `SetClippingRegion` / `ApplyActiveClipRegion`

The render-boundary (`RenderInterface`) calls issued when applying a
clip region. The context's cached active region (`Context::
Get/SetActiveClipRegion`) is not part of the shown source; it is
modelled from the spec (§3): one mutable cached ClipRegion per context,
with the reserved sentinel convention and the invariant that an active
region has non-negative dimensions. -/

/-- A call issued to the render boundary by the clip applier. -/
inductive RenderCall where
  | enableScissor (enable : Bool)
  | setScissor (x y w h : Int)
deriving DecidableEq, Repr

/-- Modelled from the spec: `Context::GetActiveClipRegion` returns the
cached origin/dimensions and reports the region active exactly when
both cached dimensions are non-negative (the §3 invariant; the sentinel
`(-1,-1)` dimensions mean "unset/no clip"). The cached region itself is
the context state. -/
def getActiveClipRegion (ctx : ClipState) : Bool × ClipState :=
  (decide (0 ≤ ctx.dx) && decide (0 ≤ ctx.dy), ctx)

/-- The desired clip state computed by `SetClippingRegion`
(lines 279-281): origin/dimensions start at the sentinel and
`clip = element && GetClippingRegion(...)`. -/
def desiredClip (elem : Option ClipNode) : ClipState × Bool :=
  match elem with
  | none => (unsetClip, false)
  | some n => getClippingRegion n

/-- `ElementUtilities::ApplyActiveClipRegion` (lines 295-309): reads the
context's cached active region, issues `EnableScissorRegion(flag)`, and
issues `SetScissorRegion(origin.x, origin.y, dims.x, dims.y)` only when
the flag is enabled. (The render interface is taken as resolved.) -/
def applyActiveClipRegion (ctx : ClipState) : List RenderCall :=
  let p := getActiveClipRegion ctx
  RenderCall.enableScissor p.1 ::
    (if p.1 then [RenderCall.setScissor p.2.ox p.2.oy p.2.dx p.2.dy] else [])

/-- `ElementUtilities::SetClippingRegion` (lines 260-293), with the
render interface and context taken as resolved (their resolution,
lines 262-277, involves only external collaborators). Returns the new
context state, the boundary calls issued, and the returned flag. -/
def setClippingRegion (elem : Option ClipNode) (ctx : ClipState) :
    ClipState × List RenderCall × Bool :=
  let d := desiredClip elem
  let cur := getActiveClipRegion ctx
  if (cur.1 != d.2) || (d.2 && decide (d.1 ≠ cur.2)) then
    (d.1, applyActiveClipRegion d.1, true)
  else
    (ctx, [], true)

/-- C4 counterexample: the claim says a difference in the desired
triple (active flag, origin, dimensions) always triggers a cache update
and an emit. With no element the desired state is
`(inactive, (-1,-1), (-1,-1))`; against a cached inactive region with
different stored origin/dimensions `((7,7), (5,-2))` the triples
differ, yet `SetClippingRegion` issues zero boundary calls and leaves
the cache untouched (both are inactive, and the code only compares
origin/dimensions when the desired region is active). -/
theorem setClippingRegion_counterexample :
    ((desiredClip none).2, (desiredClip none).1) ≠
      ((getActiveClipRegion ⟨7, 7, 5, -2⟩).1, (getActiveClipRegion ⟨7, 7, 5, -2⟩).2) ∧
    setClippingRegion none ⟨7, 7, 5, -2⟩ = (⟨7, 7, 5, -2⟩, [], true) := by
  decide

/-- C4 (amended): `SetClippingRegion` issues zero render-boundary calls
when the desired active flag equals the cached one and, if both are
active, the origin/dimensions are equal as well; when the flags differ,
or both are active with differing origin/dimensions, it updates the
cache and issues exactly one enable/disable-scissor call with the
desired flag, followed by exactly one set-scissor call with the desired
origin and dimensions if and only if the region is active. (As stated —
comparing the full triple even when both states are inactive — the
claim fails; see the counterexample.) -/
theorem setClippingRegion_spec (elem : Option ClipNode) (ctx : ClipState) :
    ((getActiveClipRegion ctx).1 = (desiredClip elem).2 ∧
        ((desiredClip elem).2 = false ∨ (desiredClip elem).1 = ctx) →
      setClippingRegion elem ctx = (ctx, [], true)) ∧
    ((getActiveClipRegion ctx).1 ≠ (desiredClip elem).2 ∨
        ((desiredClip elem).2 = true ∧ (desiredClip elem).1 ≠ ctx) →
      setClippingRegion elem ctx =
        ((desiredClip elem).1,
         RenderCall.enableScissor (desiredClip elem).2 ::
           (if (desiredClip elem).2 then
              [RenderCall.setScissor (desiredClip elem).1.ox (desiredClip elem).1.oy
                 (desiredClip elem).1.dx (desiredClip elem).1.dy]
            else []),
         true)) := by
  have hflag : (getActiveClipRegion (desiredClip elem).1).1 = (desiredClip elem).2 := by
    cases elem with
    | none => decide
    | some n =>
      simp only [desiredClip, getClippingRegion, getActiveClipRegion]
      by_cases h : n.ignoreDepth < 0
      · simp [h, unsetClip]
      · simp [h]
  constructor
  · intro ⟨h1, h2⟩
    simp only [setClippingRegion]
    have hb : ((getActiveClipRegion ctx).1 != (desiredClip elem).2) = false := by
      simp [h1]
    rw [hb]
    rcases h2 with h2 | h2
    · simp [h2]
    · simp [getActiveClipRegion, h2]
  · intro h
    simp only [setClippingRegion]
    have hcond : (((getActiveClipRegion ctx).1 != (desiredClip elem).2) ||
        ((desiredClip elem).2 && decide ((desiredClip elem).1 ≠ (getActiveClipRegion ctx).2))) =
        true := by
      rcases h with h | ⟨h1, h2⟩
      · simp [bne_iff_ne, h]
      · simp [getActiveClipRegion, h1, h2]
    rw [if_pos hcond]
    simp only [applyActiveClipRegion]
    rw [hflag]
    simp [getActiveClipRegion]

/-- Witness for `setClippingRegion_spec` at a concrete input: with an
empty cached region and a node clipped by one overflowing ancestor,
the states differ, the cache is updated and exactly an enable call
followed by a set-scissor call is issued. -/
theorem setClippingRegion_spec_witness :
    setClippingRegion (some ⟨0, [overflowElem 10 10 80 80]⟩) unsetClip =
      (⟨10, 10, 80, 80⟩, [RenderCall.enableScissor true,
        RenderCall.setScissor 10 10 80 80], true) := by
  have h := (setClippingRegion_spec (some ⟨0, [overflowElem 10 10 80 80]⟩) unsetClip).2
    (by decide)
  rw [h]
  decide

/-! ## C5 / C10 — `ApplyTransform`

`ApplyTransform` (lines 349-371) keeps a map from render-interface
identity to the last-submitted `const Matrix4f*` and compares pointers.
Pointers are embedded as addresses (`Nat`); a matrix object is an
address together with its current numeric entries, and the comparison
and the submission use only the address, exactly as the source compares
and passes raw pointers. -/

/-- A matrix object: its identity (address) and its current numeric
entries (the 4×4 `float` entries, embedded as rationals). -/
structure MatrixRef where
  addr : Nat
  entries : List ℚ
deriving DecidableEq, Repr

/-- The element's transform state (`Element::GetTransformState`): when
present, `GetTransform()` yields a possibly-null matrix pointer. -/
structure TransformState where
  transform : Option MatrixRef
deriving DecidableEq, Repr

/-- The attributes of an element read by `ApplyTransform`: its render
interface (by identity, possibly null) and its transform state. -/
structure TransformElem where
  render_interface : Option Nat
  transform_state : Option TransformState
deriving DecidableEq, Repr

/-- The `new_transform` pointer of `ApplyTransform` (lines 358-361):
the transform-state's matrix pointer when a transform state exists,
null otherwise. Only the address survives — the code holds a raw
`const Matrix4f*`. -/
def currentTransformPtr (e : TransformElem) : Option Nat :=
  match e.transform_state with
  | none => none
  | some st => st.transform.map MatrixRef.addr

/-- The `previous_matrix` map: render-interface identity to
last-submitted matrix pointer, as an association list. -/
def TransformCache : Type := List (Nat × Option Nat)

def cacheLookup : TransformCache → Nat → Option (Option Nat)
  | [], _ => none
  | (k, v) :: rest, b => if k = b then some v else cacheLookup rest b

/-- `previous_matrix.emplace(render_interface, nullptr)`: returns the
existing entry's value, or inserts `nullptr` and returns it. -/
def cacheEmplace (c : TransformCache) (b : Nat) : TransformCache × Option Nat :=
  match cacheLookup c b with
  | some v => (c, v)
  | none => ((b, none) :: c, none)

/-- The write through the reference returned by `emplace`:
`old_transform = new_transform`. -/
def cacheStore : TransformCache → Nat → Option Nat → TransformCache
  | [], _, _ => []
  | (k, v) :: rest, b, nv => if k = b then (k, nv) :: rest else (k, v) :: cacheStore rest b nv

/-- `ElementUtilities::ApplyTransform` (lines 349-371): fails when the
element has no render interface; otherwise looks up (creating with
null if absent) the cache entry for the interface, and submits the
current matrix pointer — `SetTransform(new_transform)` — and stores it
exactly when it differs from the cached pointer. Returns the new cache,
the submissions issued (each carrying the submitted pointer), and the
returned flag. -/
def applyTransform (e : TransformElem) (c : TransformCache) :
    TransformCache × List (Option Nat) × Bool :=
  match e.render_interface with
  | none => (c, [], false)
  | some b =>
    let p := cacheEmplace c b
    let nt := currentTransformPtr e
    if p.2 ≠ nt then (cacheStore p.1 b nt, [nt], true)
    else (p.1, [], true)

theorem cacheLookup_emplace (c : TransformCache) (b : Nat) :
    cacheLookup (cacheEmplace c b).1 b = some (cacheEmplace c b).2 := by
  unfold cacheEmplace
  cases h : cacheLookup c b with
  | none => simp [cacheLookup]
  | some v => simp [h]

theorem cacheEmplace_of_lookup (c : TransformCache) (b : Nat) (v : Option Nat)
    (h : cacheLookup c b = some v) : cacheEmplace c b = (c, v) := by
  simp [cacheEmplace, h]

theorem cacheLookup_store (c : TransformCache) (b : Nat) (nv : Option Nat)
    (h : (cacheLookup c b).isSome) : cacheLookup (cacheStore c b nv) b = some nv := by
  induction c with
  | nil => simp [cacheLookup] at h
  | cons kv rest ih =>
    by_cases hk : kv.1 = b
    · simp [cacheStore, cacheLookup, hk]
    · simp only [cacheStore, cacheLookup, hk, if_false] at h ⊢
      exact ih h

/-- C5: for every element whose render boundary is resolvable,
`ApplyTransform` succeeds, submits the element's current transform
(its transform-state matrix pointer if present, else none) exactly
when it differs from the cached last-submitted one and issues zero
submissions otherwise, leaves the cached value equal to the current
transform, and a repeated call with the unchanged transform submits
nothing. -/
theorem applyTransform_spec (e : TransformElem) (c : TransformCache) (b : Nat)
    (hb : e.render_interface = some b) :
    (applyTransform e c).2.2 = true ∧
    ((applyTransform e c).2.1 =
      if (cacheEmplace c b).2 = currentTransformPtr e then [] else [currentTransformPtr e]) ∧
    cacheLookup (applyTransform e c).1 b = some (currentTransformPtr e) ∧
    (applyTransform e (applyTransform e c).1).2.1 = [] := by
  by_cases h : (cacheEmplace c b).2 = currentTransformPtr e
  · have hr : applyTransform e c = ((cacheEmplace c b).1, [], true) := by
      simp only [applyTransform, hb]
      rw [if_neg (fun hne => hne h)]
    have hl : cacheLookup (cacheEmplace c b).1 b = some (currentTransformPtr e) := by
      rw [cacheLookup_emplace, h]
    refine ⟨by rw [hr], by rw [hr, if_pos h], by rw [hr]; exact hl, ?_⟩
    rw [hr]
    simp only [applyTransform, hb, cacheEmplace_of_lookup _ _ _ hl]
    rw [if_neg (fun hne => hne rfl)]
  · have hr : applyTransform e c =
        (cacheStore (cacheEmplace c b).1 b (currentTransformPtr e),
         [currentTransformPtr e], true) := by
      simp only [applyTransform, hb]
      rw [if_pos h]
    have hsome : (cacheLookup (cacheEmplace c b).1 b).isSome := by
      rw [cacheLookup_emplace]; rfl
    have hst : cacheLookup (cacheStore (cacheEmplace c b).1 b (currentTransformPtr e)) b =
        some (currentTransformPtr e) := cacheLookup_store _ _ _ hsome
    refine ⟨by rw [hr], by rw [hr, if_neg h], by rw [hr]; exact hst, ?_⟩
    rw [hr]
    simp only [applyTransform, hb, cacheEmplace_of_lookup _ _ _ hst]
    rw [if_neg (fun hne => hne rfl)]

/-- Witness for `applyTransform_spec` at a concrete input: an element
with a transform at address `5` against an empty cache submits exactly
once, and again nothing on the repeated call. -/
theorem applyTransform_spec_witness :
    (applyTransform ⟨some 3, some ⟨some ⟨5, [1, 0, 0, 1]⟩⟩⟩ []).2.2 = true ∧
    ((applyTransform ⟨some 3, some ⟨some ⟨5, [1, 0, 0, 1]⟩⟩⟩ []).2.1 =
      if (cacheEmplace [] 3).2 = currentTransformPtr ⟨some 3, some ⟨some ⟨5, [1, 0, 0, 1]⟩⟩⟩
      then [] else [currentTransformPtr ⟨some 3, some ⟨some ⟨5, [1, 0, 0, 1]⟩⟩⟩]) ∧
    cacheLookup (applyTransform ⟨some 3, some ⟨some ⟨5, [1, 0, 0, 1]⟩⟩⟩ []).1 3 =
      some (currentTransformPtr ⟨some 3, some ⟨some ⟨5, [1, 0, 0, 1]⟩⟩⟩) ∧
    (applyTransform ⟨some 3, some ⟨some ⟨5, [1, 0, 0, 1]⟩⟩⟩
      (applyTransform ⟨some 3, some ⟨some ⟨5, [1, 0, 0, 1]⟩⟩⟩ []).1).2.1 = [] :=
  applyTransform_spec ⟨some 3, some ⟨some ⟨5, [1, 0, 0, 1]⟩⟩⟩ [] 3 rfl

/-- C10: `ApplyTransform` compares transforms by the identity of the
matrix object, not by value: the result depends on the element only
through its render interface and its current matrix address (so
modifying the pointed-to entries in place changes nothing); when the
cached pointer equals the current matrix address no submission is
issued even though the entries may differ from what was submitted; and
on the first call for a boundary with no cache entry, an element
without a transform issues no submission because the freshly created
entry already holds none. -/
theorem applyTransform_identity (e1 e2 : TransformElem) (c : TransformCache) (b : Nat)
    (hb : e1.render_interface = some b) :
    (e1.render_interface = e2.render_interface →
      currentTransformPtr e1 = currentTransformPtr e2 →
      applyTransform e1 c = applyTransform e2 c) ∧
    ((cacheEmplace c b).2 = currentTransformPtr e1 → (applyTransform e1 c).2.1 = []) ∧
    (cacheLookup c b = none → currentTransformPtr e1 = none →
      (applyTransform e1 c).2.1 = []) := by
  refine ⟨?_, ?_, ?_⟩
  · intro hre hcur
    simp only [applyTransform, hb, ← hre, hcur]
  · intro hcache
    simp only [applyTransform, hb]
    have hne : ¬ ((cacheEmplace c b).2 ≠ currentTransformPtr e1) := by simp [hcache]
    simp [hne]
  · intro hnone hcur
    simp only [applyTransform, hb, hcur]
    have : (cacheEmplace c b).2 = none := by simp [cacheEmplace, hnone]
    simp [this]

/-- Witness for `applyTransform_identity` at concrete inputs: two
elements sharing the matrix address `5` but with different in-place
entries behave identically, and with the address already cached no
submission is issued. -/
theorem applyTransform_identity_witness :
    applyTransform ⟨some 3, some ⟨some ⟨5, [1, 0]⟩⟩⟩ [(3, some 5)] =
      applyTransform ⟨some 3, some ⟨some ⟨5, [2, 7]⟩⟩⟩ [(3, some 5)] ∧
    (applyTransform ⟨some 3, some ⟨some ⟨5, [1, 0]⟩⟩⟩ [(3, some 5)]).2.1 = [] :=
  ⟨(applyTransform_identity ⟨some 3, some ⟨some ⟨5, [1, 0]⟩⟩⟩ ⟨some 3, some ⟨some ⟨5, [2, 7]⟩⟩⟩
      [(3, some 5)] 3 rfl).1 rfl rfl,
   (applyTransform_identity ⟨some 3, some ⟨some ⟨5, [1, 0]⟩⟩⟩ ⟨some 3, some ⟨some ⟨5, [2, 7]⟩⟩⟩
      [(3, some 5)] 3 rfl).2.1 (by decide)⟩

/-! ## C6 / C7 — `PositionElement`

`PositionElement` (lines 325-347) with its helpers `SetBox`
(lines 43-59) and `SetElementOffset` (lines 62-70). The `Box` type and
the external layout algorithm (`LayoutEngine::BuildBox`) are not part
of the shown source; the box is modelled from the spec (§3: nested
content/padding/border/margin rectangles) and the layout
algorithm is a parameter. All `float` geometry is embedded as `ℚ`. -/

/-- Modelled from the spec (§3 "Box"): the content-area position
(`GetPosition(Box::CONTENT)`), the content size
(`GetSize(Box::CONTENT)`), and the per-side margin, border and padding
edges. `GetSize(Box::MARGIN)` sums an axis across all edges;
`SetContent` replaces the content size. -/
structure Box where
  posX : ℚ
  posY : ℚ
  contentW : ℚ
  contentH : ℚ
  marginL : ℚ
  marginT : ℚ
  marginR : ℚ
  marginB : ℚ
  borderL : ℚ
  borderT : ℚ
  borderR : ℚ
  borderB : ℚ
  paddingL : ℚ
  paddingT : ℚ
  paddingR : ℚ
  paddingB : ℚ
deriving DecidableEq, Repr

/-- `Box::GetSize(Box::MARGIN)`, x-axis. -/
def Box.sizeMarginX (b : Box) : ℚ :=
  b.marginL + b.borderL + b.paddingL + b.contentW + b.paddingR + b.borderR + b.marginR

/-- `Box::GetSize(Box::MARGIN)`, y-axis. -/
def Box.sizeMarginY (b : Box) : ℚ :=
  b.marginT + b.borderT + b.paddingT + b.contentH + b.paddingB + b.borderB + b.marginB

/-- `Box::SetContent`. -/
def Box.setContent (b : Box) (w h : ℚ) : Box := { b with contentW := w, contentH := h }

/-- The parent attributes read during positioning: its box and its
scrollbar thickness per axis (`ElementScroll::GetScrollbarSize`). -/
structure PosParent where
  box : Box
  scrollbarV : ℚ
  scrollbarH : ℚ
deriving DecidableEq, Repr

/-- The element attributes read and written by `PositionElement`:
optional parent, whether the computed height is `auto`, its box and its
stored offset. -/
structure PosElem where
  parent : Option PosParent
  heightAuto : Bool
  box : Box
  offsetX : ℚ
  offsetY : ℚ
deriving DecidableEq, Repr

/-- The static `SetBox` helper (lines 43-59): containing block =
parent content size minus the parent's vertical scrollbar thickness on
x and horizontal on y; delegate to the external layout algorithm
(`LayoutEngine::BuildBox`, the `layout` parameter); when the computed
height is not `auto`, force the content height to the containing-block
height. -/
def setBox (layout : ℚ → ℚ → Box) (e : PosElem) (p : PosParent) : Box :=
  let cbX := p.box.contentW - p.scrollbarV
  let cbY := p.box.contentH - p.scrollbarH
  let box := layout cbX cbY
  if e.heightAuto then box else box.setContent box.contentW cbY

/-- The static `SetElementOffset` helper (lines 62-70): the stored
offset is the parent's content-box position plus the given offset plus
the element's own margin-left/top. -/
def setElementOffset (e : PosElem) (p : PosParent) (ox oy : ℚ) : ℚ × ℚ :=
  (p.box.posX + ox + e.box.marginL, p.box.posY + oy + e.box.marginT)

/-- The `RIGHT`/`BOTTOM` anchor flags tested by `PositionElement`. -/
structure PositionAnchor where
  right : Bool
  bottom : Bool
deriving DecidableEq, Repr

/-- `ElementUtilities::PositionElement` (lines 325-347): fails (no-op)
without a parent; otherwise rebuilds the box via `SetBox`, resolves the
offset against the parent's content size and the element's margin-box
size according to the anchor flags, and stores the offset via
`SetElementOffset`. -/
def positionElement (layout : ℚ → ℚ → Box) (e : PosElem) (ox oy : ℚ)
    (anchor : PositionAnchor) : PosElem × Bool :=
  match e.parent with
  | none => (e, false)
  | some p =>
    let box := setBox layout e p
    let e1 := { e with box := box }
    let cbX := p.box.contentW
    let cbY := p.box.contentH
    let ebX := box.sizeMarginX
    let ebY := box.sizeMarginY
    let rx := if anchor.right then cbX - (ebX + ox) else ox
    let ry := if anchor.bottom then cbY - (ebY + oy) else oy
    let off := setElementOffset e1 p rx ry
    ({ e1 with offsetX := off.1, offsetY := off.2 }, true)

/-- An all-zero box, for concrete witnesses. -/
def zeroBox : Box := ⟨0, 0, 0, 0, 0, 0, 0, 0, 0, 0, 0, 0, 0, 0, 0, 0⟩

/-- A concrete box with content `50×40` at `(5, 6)` and margins
`(2, 3, 2, 3)` (no border or padding), for concrete witnesses. -/
def sampleBox : Box := ⟨5, 6, 50, 40, 2, 3, 2, 3, 0, 0, 0, 0, 0, 0, 0, 0⟩

/-- A parent-less element, for concrete witnesses. -/
def noParentElem : PosElem := ⟨none, true, zeroBox, 0, 0⟩

/-- A concrete parent whose box is `sampleBox`, without scrollbars. -/
def sampleParent : PosParent := ⟨sampleBox, 0, 0⟩

/-- A concrete child of `sampleParent`, for concrete witnesses. -/
def sampleChild : PosElem := ⟨some sampleParent, true, zeroBox, 0, 0⟩

/-- C7: `PositionElement` returns failure if and only if the element
has no parent; on that failure it is a no-op (box and offset
unchanged, the element is returned as given); with a parent it returns
success. -/
theorem positionElement_failure (layout : ℚ → ℚ → Box) (e : PosElem) (ox oy : ℚ)
    (anchor : PositionAnchor) :
    ((positionElement layout e ox oy anchor).2 = false ↔ e.parent = none) ∧
    (e.parent = none → positionElement layout e ox oy anchor = (e, false)) := by
  cases h : e.parent with
  | none => simp [positionElement, h]
  | some p => simp [positionElement, h]

/-- Witness for `positionElement_failure` at a concrete input: an
element without a parent is returned unchanged with failure. -/
theorem positionElement_failure_witness :
    ((positionElement (fun _ _ => zeroBox) noParentElem 3 4 ⟨false, false⟩).2 = false ↔
      noParentElem.parent = none) ∧
    (noParentElem.parent = none →
      positionElement (fun _ _ => zeroBox) noParentElem 3 4 ⟨false, false⟩ =
        (noParentElem, false)) :=
  positionElement_failure (fun _ _ => zeroBox) noParentElem 3 4 ⟨false, false⟩

/-- C6: for every element with a parent, the final offset with no
anchor flags equals the parent's content-box origin plus the input
offset plus the (rebuilt) box's margin-left/top; with the `RIGHT` flag
the resolved x-component equals the containing width minus
(margin-box width + input x) before the content-origin and margin-left
additions, and analogously for `BOTTOM`. -/
theorem positionElement_offset (layout : ℚ → ℚ → Box) (e : PosElem) (p : PosParent)
    (ox oy : ℚ) (anchor : PositionAnchor) (hp : e.parent = some p) :
    (anchor.right = false →
      (positionElement layout e ox oy anchor).1.offsetX =
        p.box.posX + ox + (positionElement layout e ox oy anchor).1.box.marginL) ∧
    (anchor.bottom = false →
      (positionElement layout e ox oy anchor).1.offsetY =
        p.box.posY + oy + (positionElement layout e ox oy anchor).1.box.marginT) ∧
    (anchor.right = true →
      (positionElement layout e ox oy anchor).1.offsetX =
        p.box.posX +
          (p.box.contentW - ((positionElement layout e ox oy anchor).1.box.sizeMarginX + ox)) +
          (positionElement layout e ox oy anchor).1.box.marginL) ∧
    (anchor.bottom = true →
      (positionElement layout e ox oy anchor).1.offsetY =
        p.box.posY +
          (p.box.contentH - ((positionElement layout e ox oy anchor).1.box.sizeMarginY + oy)) +
          (positionElement layout e ox oy anchor).1.box.marginT) := by
  simp only [positionElement, hp, setElementOffset]
  refine ⟨?_, ?_, ?_, ?_⟩ <;> intro h <;> simp [h]

/-- Witness for `positionElement_offset` at a concrete input: with a
constant layout box and no anchor flags the offset is the parent
content origin plus the requested offset plus the margin-left/top. -/
theorem positionElement_offset_witness :
    (positionElement (fun _ _ => sampleBox) sampleChild 3 4 ⟨false, false⟩).1.offsetX =
      sampleParent.box.posX + 3 +
        (positionElement (fun _ _ => sampleBox) sampleChild 3 4 ⟨false, false⟩).1.box.marginL :=
  ((positionElement_offset (fun _ _ => sampleBox) sampleChild sampleParent 3 4
    ⟨false, false⟩ rfl).1) rfl


/-! ## C8 — breadth-first tag/class search

`GetElementsByTagName` / `GetElementsByClassName` (lines 97-139) run a
queue-based breadth-first search seeded with the root's children (the
root itself is never enqueued), appending each dequeued element's
children to the back of the queue and collecting matches in dequeue
order. The reference order is the spec's level-order enumeration. -/

/-- A document tree node with its tag, class identifiers and ordered
children. `GetTagName` / `IsClassSet` are external `Element` accessors;
they are modelled from the spec (§6: "id/class/tag identifiers") as a
stored tag and class list. -/
inductive Elem where
  | mk (tag : String) (classes : List String) (children : List Elem)

def Elem.tag : Elem → String
  | .mk t _ _ => t

def Elem.classes : Elem → List String
  | .mk _ c _ => c

def Elem.children : Elem → List Elem
  | .mk _ _ ch => ch

/-- Modelled from the spec: `Element::IsClassSet` tests whether the
class identifier is among the node's classes. -/
def Elem.isClassSet (e : Elem) (name : String) : Bool := e.classes.contains name

mutual

/-- Number of nodes in a subtree (the termination measure of the
queue-based search). -/
def Elem.size : Elem → Nat
  | .mk _ _ ch => 1 + sizeList ch

/-- Total number of nodes in a forest. -/
def sizeList : List Elem → Nat
  | [] => 0
  | e :: r => Elem.size e + sizeList r

end

theorem Elem.size_eq (e : Elem) : e.size = 1 + sizeList e.children := by
  cases e
  rfl

theorem sizeList_append (a b : List Elem) : sizeList (a ++ b) = sizeList a + sizeList b := by
  induction a with
  | nil => simp [sizeList]
  | cons e r ih =>
    rw [List.cons_append]
    rw [show sizeList (e :: (r ++ b)) = e.size + sizeList (r ++ b) from rfl]
    rw [show sizeList (e :: r) = e.size + sizeList r from rfl]
    rw [ih]
    omega

theorem sizeList_eq_zero {q : List Elem} (h : sizeList q = 0) : q = [] := by
  cases q with
  | nil => rfl
  | cons e r =>
    rw [sizeList, Elem.size_eq] at h
    omega

/-- The queue loop shared by `GetElementsByTagName` and
`GetElementsByClassName` (lines 105-116 / 127-138): dequeue the front
element, append it to the result when the predicate matches, enqueue
its children at the back, repeat until the queue is empty. -/
def bfsFilter (p : Elem → Bool) : List Elem → List Elem
  | [] => []
  | e :: rest => (if p e then [e] else []) ++ bfsFilter p (rest ++ e.children)
termination_by q => sizeList q
decreasing_by
  simp only [sizeList_append, sizeList, Elem.size_eq]
  omega

/-- `ElementUtilities::GetElementsByTagName` (lines 97-117): seed the
queue with the root's children, collect elements whose tag matches. -/
def getElementsByTagName (root : Elem) (tag : String) : List Elem :=
  bfsFilter (fun e => e.tag == tag) root.children

/-- `ElementUtilities::GetElementsByClassName` (lines 119-139): seed
the queue with the root's children, collect elements with the class
set. -/
def getElementsByClassName (root : Elem) (class_name : String) : List Elem :=
  bfsFilter (fun e => e.isClassSet class_name) root.children

theorem sizeList_flatMap_le (q : List Elem) :
    sizeList (q.flatMap Elem.children) ≤ sizeList q := by
  induction q with
  | nil => simp [sizeList]
  | cons e r ih =>
    simp only [List.flatMap_cons, sizeList_append, sizeList, Elem.size_eq]
    omega

theorem sizeList_level_lt (e : Elem) (r : List Elem) :
    sizeList (e.children ++ r.flatMap Elem.children) < sizeList (e :: r) := by
  have h := sizeList_flatMap_le r
  rw [sizeList_append]
  rw [show sizeList (e :: r) = e.size + sizeList r from rfl, Elem.size_eq]
  omega

/-- Modelled from the spec (§4.1): the level-order enumeration of a
forest — the nodes of the current level followed by the enumeration of
the next level, the concatenation of all their children. -/
def levelsJoin : List Elem → List Elem
  | [] => []
  | e :: rest => (e :: rest) ++ levelsJoin (e.children ++ rest.flatMap Elem.children)
termination_by q => sizeList q
decreasing_by
  apply sizeList_level_lt

/-- The depth-first enumeration of all nodes of a forest (each node
followed by its whole subtree), used to state completeness of the
searches. -/
def allDescList : List Elem → List Elem
  | [] => []
  | e :: rest => e :: (allDescList e.children ++ allDescList rest)
termination_by q => sizeList q
decreasing_by
  · simp only [sizeList, Elem.size_eq]
    omega
  · simp only [sizeList, Elem.size_eq]
    omega

theorem bfsFilter_eq_levels_aux (p : Elem → Bool) :
    ∀ (N : Nat) (q1 q2 : List Elem),
      2 * (sizeList q1 + sizeList q2) + (if q2.length = 0 then 0 else 1) ≤ N →
      bfsFilter p (q1 ++ q2) =
        q1.filter p ++ (levelsJoin (q2 ++ q1.flatMap Elem.children)).filter p := by
  intro N
  induction N with
  | zero =>
    intro q1 q2 hM
    by_cases hq : q2.length = 0
    · rw [if_pos hq] at hM
      have h2 : q2 = [] := List.length_eq_zero.mp hq
      subst h2
      have h1 : q1 = [] := sizeList_eq_zero (by simp only [sizeList] at hM; omega)
      subst h1
      simp [bfsFilter, levelsJoin]
    · rw [if_neg hq] at hM
      omega
  | succ n ih =>
    intro q1 q2 hM
    cases q1 with
    | nil =>
      cases q2 with
      | nil => simp [bfsFilter, levelsJoin]
      | cons e rest =>
        have hM2 : 2 * (sizeList (e :: rest) + sizeList ([] : List Elem)) +
            (if ([] : List Elem).length = 0 then 0 else 1) ≤ n := by
          have hind : (if (e :: rest).length = 0 then 0 else 1) = 1 := by simp
          rw [hind] at hM
          have hind2 : (if ([] : List Elem).length = 0 then 0 else 1) = 0 := by simp
          rw [hind2]
          omega
        have h2 := ih (e :: rest) [] hM2
        rw [List.append_nil, List.nil_append, List.flatMap_cons] at h2
        rw [List.nil_append, List.filter_nil, List.nil_append, List.flatMap_nil,
          List.append_nil, h2]
        simp only [levelsJoin]
        rw [List.filter_append]
    | cons e q1t =>
      rw [List.cons_append]
      simp only [bfsFilter]
      have hM2 : 2 * (sizeList q1t + sizeList (q2 ++ e.children)) +
          (if (q2 ++ e.children).length = 0 then 0 else 1) ≤ n := by
        have hsz : sizeList (e :: q1t) = 1 + sizeList e.children + sizeList q1t := by
          rw [show sizeList (e :: q1t) = e.size + sizeList q1t from rfl, Elem.size_eq]
        rw [hsz] at hM
        rw [sizeList_append]
        have hi1 : (if (q2 ++ e.children).length = 0 then 0 else 1) ≤ 1 := by
          split <;> omega
        have hi2 : 0 ≤ (if q2.length = 0 then 0 else 1) := by
          split <;> omega
        omega
      have h2 := ih q1t (q2 ++ e.children) hM2
      rw [List.append_assoc]
      rw [h2]
      rw [List.filter_cons, List.flatMap_cons, ← List.append_assoc]
      by_cases hp : p e <;> simp [hp]

/-- The queue-based search equals the filtered level-order
enumeration. -/
theorem bfsFilter_eq_levels (p : Elem → Bool) (q : List Elem) :
    bfsFilter p q = (levelsJoin q).filter p := by
  have h := bfsFilter_eq_levels_aux p (2 * (sizeList q + sizeList q) + 1) [] q
    (by split <;> simp only [sizeList] <;> omega)
  simpa using h

theorem allDescList_append (a b : List Elem) :
    allDescList (a ++ b) = allDescList a ++ allDescList b := by
  induction a with
  | nil => simp [allDescList]
  | cons e r ih =>
    rw [List.cons_append]
    simp only [allDescList]
    rw [ih, List.cons_append, List.append_assoc]

theorem mem_allDescList_iff (x : Elem) (q : List Elem) :
    x ∈ allDescList q ↔ x ∈ q ∨ x ∈ allDescList (q.flatMap Elem.children) := by
  induction q with
  | nil => simp [allDescList]
  | cons e rest ih =>
    rw [List.flatMap_cons, allDescList_append]
    simp only [allDescList, List.mem_cons, List.mem_append, ih]
    tauto

theorem mem_levelsJoin (x : Elem) (q : List Elem) :
    x ∈ levelsJoin q ↔ x ∈ allDescList q := by
  induction q using levelsJoin.induct with
  | case1 => simp [levelsJoin, allDescList]
  | case2 e rest ih =>
    rw [mem_allDescList_iff]
    simp only [levelsJoin, List.mem_append, List.flatMap_cons, ih]

/-- C8: for every tree and every tag/class query, the searches equal
the level-order enumeration of the root's proper descendants filtered
by the query — so the root itself is never included, every match at
depth `k` precedes every match at depth `k+1`, and matches of one level
keep their sibling/tree order — and an element is in the result exactly
when it is a descendant of the root that matches. -/
theorem getElementsBy_level_order (root : Elem) (tag class_name : String) :
    getElementsByTagName root tag =
      (levelsJoin root.children).filter (fun e => e.tag == tag) ∧
    getElementsByClassName root class_name =
      (levelsJoin root.children).filter (fun e => e.isClassSet class_name) ∧
    (∀ x, x ∈ getElementsByTagName root tag ↔
      (x ∈ allDescList root.children ∧ x.tag = tag)) ∧
    (∀ x, x ∈ getElementsByClassName root class_name ↔
      (x ∈ allDescList root.children ∧ x.isClassSet class_name = true)) := by
  refine ⟨bfsFilter_eq_levels _ _, bfsFilter_eq_levels _ _, ?_, ?_⟩
  · intro x
    rw [getElementsByTagName, bfsFilter_eq_levels, List.mem_filter, mem_levelsJoin]
    simp only [beq_iff_eq]
  · intro x
    rw [getElementsByClassName, bfsFilter_eq_levels, List.mem_filter, mem_levelsJoin]

end RmlUiCore
